import Mathlib

/-!
Verification of the reload core of the `serv` static-file server.

The development shallowly embeds the parts of the program the claims talk
about:

* the fingerprint computation of `main.go` (configuration canonicalised via
  `settings.ReadConfigFile` + `json.Marshal`, raw bytes for the other watched
  targets, all fed into one streaming digest);
* the supervisor loop of `main.go` that restarts the serving generation when
  the fingerprint changes;
* the debounce goroutine of `main.go`;
* the rotating log writer of `zok/log` (`LogrotateWriter`);
* the inotify watch registry of `inotify.go` (`INotify.AddWatch`);
* the backup-name round trip of the log writer.

Byte strings are modelled as `List Nat` (one entry per byte).  The SHA-1
digest is idealised as the injective map sending the streamed bytes to
themselves: the design assumption behind the fingerprint comparison is that
the digest is collision-free, so fingerprint equality is modelled as equality
of the digested byte stream.
-/

/-- Bytes of a Lean string literal (ASCII contents only are used). -/
def strBytes (s : String) : List Nat :=
  s.data.map Char.toNat

/-! ### Settings and configuration parsing

Models `settings.Settings`, its defaults, and the behaviour of
`readConfigFile` in `settings/config.go`: the file content (a single `Read`
into a 4096-byte buffer) is JSON-decoded on top of the default settings;
on any failure the defaults are kept (in `main.go` the error returned by
`settings.ReadConfigFile` is discarded).  The JSON decoder is modelled for
the subset produced by configuration files: one object whose values are
strings, integers, booleans or null, with Go's whitespace handling; unknown
keys are skipped, a type mismatch or unsupported construct makes the decode
fail (and the defaults are used).
-/

/-- The `settings.Settings` struct (fields in declaration order, which is
also the `json.Marshal` output order). -/
structure GoSettings where
  servePort : Int
  serveTLSPort : Int
  tlsCertificate : List Nat
  tlsKey : List Nat
  tlsPfx : List Nat
  webRoot : List Nat
  dataDirectory : List Nat
deriving DecidableEq

/-- The `settings.Default` value. -/
def goDefault : GoSettings :=
  { servePort := 80
    serveTLSPort := 443
    tlsCertificate := []
    tlsKey := []
    tlsPfx := []
    webRoot := strBytes ("www")
    dataDirectory := strBytes ("data") }

/-- JSON whitespace bytes (space, tab, newline, carriage return). -/
def isJsonWs (b : Nat) : Bool :=
  b = 32 || b = 9 || b = 10 || b = 13

def skipWs (s : List Nat) : List Nat :=
  s.dropWhile isJsonWs

/-- Body of a JSON string after the opening quote: bytes up to the closing
quote; a backslash keeps the following byte (escape sequences beyond this
are not needed by the claims). -/
def parseStringBody : List Nat → Option (List Nat × List Nat)
  | [] => none
  | 34 :: rest => some ([], rest)
  | 92 :: c :: rest =>
      (parseStringBody rest).map (fun p => (c :: p.1, p.2))
  | b :: rest =>
      (parseStringBody rest).map (fun p => (b :: p.1, p.2))

def isDigitByte (b : Nat) : Bool :=
  48 ≤ b && b ≤ 57

def digitsToNat (ds : List Nat) : Nat :=
  ds.foldl (fun acc d => 10 * acc + (d - 48)) 0

/-- Parse a (possibly negative) JSON integer. -/
def parseNumber (s : List Nat) : Option (Int × List Nat) :=
  match s with
  | 45 :: rest =>
      let ds := rest.takeWhile isDigitByte
      if ds = [] then none
      else some (-(digitsToNat ds : Int), rest.dropWhile isDigitByte)
  | _ =>
      let ds := s.takeWhile isDigitByte
      if ds = [] then none
      else some ((digitsToNat ds : Int), s.dropWhile isDigitByte)

/-- JSON scalar values supported by the configuration decoder model. -/
inductive JVal where
  | str (s : List Nat)
  | num (n : Int)
  | boolean (b : Bool)
  | null
deriving DecidableEq

def parseValue (s : List Nat) : Option (JVal × List Nat) :=
  match s with
  | 34 :: rest => (parseStringBody rest).map (fun p => (JVal.str p.1, p.2))
  | 116 :: 114 :: 117 :: 101 :: rest => some (JVal.boolean true, rest)
  | 102 :: 97 :: 108 :: 115 :: 101 :: rest => some (JVal.boolean false, rest)
  | 110 :: 117 :: 108 :: 108 :: rest => some (JVal.null, rest)
  | _ => (parseNumber s).map (fun p => (JVal.num p.1, p.2))

/-- Apply one decoded key/value pair to the settings under construction,
mirroring `json.Unmarshal` field matching on the struct tags of
`settings.Settings`.  Unknown keys are ignored; a known key with a value of
the wrong type fails the decode. -/
def applyField (c : GoSettings) (key : List Nat) (v : JVal) : Option GoSettings :=
  if key = strBytes ("http") then
    match v with
    | JVal.num n => some { c with servePort := n }
    | _ => none
  else if key = strBytes ("https") then
    match v with
    | JVal.num n => some { c with serveTLSPort := n }
    | _ => none
  else if key = strBytes ("tls_cert") then
    match v with
    | JVal.str s => some { c with tlsCertificate := s }
    | _ => none
  else if key = strBytes ("tls_key") then
    match v with
    | JVal.str s => some { c with tlsKey := s }
    | _ => none
  else if key = strBytes ("tls_pfx") then
    match v with
    | JVal.str s => some { c with tlsPfx := s }
    | _ => none
  else if key = strBytes ("www") then
    match v with
    | JVal.str s => some { c with webRoot := s }
    | _ => none
  else if key = strBytes ("data") then
    match v with
    | JVal.str s => some { c with dataDirectory := s }
    | _ => none
  else
    some c

/-- Parse the members of a JSON object (after the opening brace), folding
each field into the settings.  The fuel is an upper bound on the number of
members (the remaining input length suffices). -/
def parseFields (fuel : Nat) (acc : GoSettings) (s : List Nat) :
    Option (GoSettings × List Nat) :=
  match fuel with
  | 0 => none
  | fuel + 1 =>
    match skipWs s with
    | 34 :: rest =>
        (parseStringBody rest).bind (fun kp =>
          match skipWs kp.2 with
          | 58 :: r3 =>
              (parseValue (skipWs r3)).bind (fun vp =>
                (applyField acc kp.1 vp.1).bind (fun acc' =>
                  match skipWs vp.2 with
                  | 44 :: r6 => parseFields fuel acc' r6
                  | 125 :: r6 => some (acc', r6)
                  | _ => none))
          | _ => none)
    | _ => none

/-- Decode a whole configuration document: a single JSON object applied on
top of `settings.Default`, exactly as `json.Unmarshal(buf, &config)` does in
`readConfigFile`. -/
def parseSettingsJson (d : List Nat) : Option GoSettings :=
  match skipWs d with
  | 123 :: rest =>
      match skipWs rest with
      | 125 :: r2 => if skipWs r2 = [] then some goDefault else none
      | _ =>
          (parseFields rest.length goDefault rest).bind (fun p =>
            if skipWs p.2 = [] then some p.1 else none)
  | _ => none

/-- The settings obtained from the configuration target: absent file or
failed decode falls back to `settings.Default` (the caller in `main.go`
ignores the returned error); only the first 4096 bytes are read
(`readConfigFile` performs a single `Read` into a 4096-byte buffer). -/
def readSettings (content : Option (List Nat)) : GoSettings :=
  match content with
  | none => goDefault
  | some d => (parseSettingsJson (d.take 4096)).getD goDefault

/-- Decimal digits of a natural number, as bytes. -/
def natBytes (n : Nat) : List Nat :=
  (Nat.toDigits 10 n).map Char.toNat

/-- Go `json.Marshal` of an integer. -/
def intBytes (n : Int) : List Nat :=
  if n < 0 then 45 :: natBytes n.natAbs else natBytes n.natAbs

/-- Go `json.Marshal` of a string: quoted, with quote and backslash escaped
(the escapes relevant to the fields at hand). -/
def jsonStringBytes (s : List Nat) : List Nat :=
  34 :: (s.map (fun b => if b = 34 || b = 92 then [92, b] else [b])).flatten ++ [34]

/-- Go `json.Marshal` of a `settings.Settings` value: one object with the
fields in struct order (this is the canonical configuration content that
`main.go` feeds into the digest). -/
def marshalSettings (c : GoSettings) : List Nat :=
  [123]
    ++ strBytes ("\"http\":") ++ intBytes c.servePort
    ++ strBytes (",\"https\":") ++ intBytes c.serveTLSPort
    ++ strBytes (",\"tls_cert\":") ++ jsonStringBytes c.tlsCertificate
    ++ strBytes (",\"tls_key\":") ++ jsonStringBytes c.tlsKey
    ++ strBytes (",\"tls_pfx\":") ++ jsonStringBytes c.tlsPfx
    ++ strBytes (",\"www\":") ++ jsonStringBytes c.webRoot
    ++ strBytes (",\"data\":") ++ jsonStringBytes c.dataDirectory
    ++ [125]

/-! ### Watched targets and the fingerprint

Models the digest loop of `main.go` (lines 97-107 and 171-181): for each
path returned by `f.Watched()`, the configuration target contributes
`json.Marshal(settings.ReadConfigFile())` and every other target contributes
the raw bytes of the file (`writeFile` contributes nothing when the file
cannot be opened).  The digest is idealised as the concatenation of the
contributed bytes (an injective stand-in for the SHA-1 stream).
-/

/-- One watched target: its (cleaned) path as stored in the watch table, and
its current on-disk content (`none` when the file does not exist). -/
structure WatchTarget where
  path : List Nat
  content : Option (List Nat)
deriving DecidableEq

/-- Bytes a single target feeds into the digest. -/
def targetContribution (configPath : List Nat) (t : WatchTarget) : List Nat :=
  if t.path = configPath then marshalSettings (readSettings t.content)
  else t.content.getD []

/-- The fingerprint over a traversal of the watched targets. -/
def fingerprint (configPath : List Nat) (targets : List WatchTarget) : List Nat :=
  (targets.map (targetContribution configPath)).flatten

/-! ### The generation supervisor

Models the `case <-changed:` arm of the select loop in `main.go`
(lines 163-192): recompute the fingerprint; if it equals the stored one,
`continue`; otherwise store it, cancel the current generation's context with
cause `ErrConfigChanged`, and start a fresh generation from a context derived
from the root context.  Generations are numbered; a cancellation is recorded
as the cancelled generation number together with its cause.
-/

inductive Cause where
  | terminated
  | configChanged
deriving DecidableEq

structure SupervisorState where
  hash : List Nat
  generation : Nat
  cancelledLog : List (Nat × Cause)
deriving DecidableEq

/-- Handling of one `ChangeSignal` by the supervisor. -/
def handleChanged (st : SupervisorState) (configPath : List Nat)
    (targets : List WatchTarget) : SupervisorState :=
  let b := fingerprint configPath targets
  if b = st.hash then st
  else
    { hash := b
      generation := st.generation + 1
      cancelledLog := st.cancelledLog ++ [(st.generation, Cause.configChanged)] }

/-! ### The debounce goroutine

Models the goroutine of `main.go` lines 111-135.  For each raw event the
loop cancels the previous debounce context and creates a new one with
`context.WithTimeout(appCtx, 200 ms)`; a helper goroutine sleeps for the
same 200 ms and sends on `changed` only if the context is not yet done.
Instants are integers.  A context created at time `e` with window `D` is
done at time `t` iff `e + D ≤ t` (its own deadline has expired) or a later
raw event has already cancelled it.  The helper goroutine created for the
event at `e` performs its check at `e + d + D`, where `d ≥ 0` accounts for
goroutine start-up and sleep overshoot (`time.Sleep` sleeps at least `D`).
-/

def ctxDoneAt (deadline : Int) (cancelAt : Option Int) (t : Int) : Bool :=
  decide (deadline ≤ t) ||
    (match cancelAt with
     | some c => decide (c ≤ t)
     | none => false)

/-- Number of `ChangeSignal`s emitted for a burst of raw events, given as
(event time, nonnegative check delay) pairs in order. -/
def debounceEmitCount (D : Int) : List (Int × Int) → Nat
  | [] => 0
  | (e, d) :: rest =>
      let cancelAt : Option Int :=
        match rest with
        | (e2, _) :: _ => some e2
        | [] => none
      (if ctxDoneAt (e + D) cancelAt (e + d + D) = false then 1 else 0) +
        debounceEmitCount D rest

/-! ### The rotating log writer

Models `LogrotateWriter` from `zok/log` (the lumberjack-style writer): the
tracked size `l.size`, the open handle `l.file`, the active file on disk and
the list of rotated-away backups.  Filesystem operations are assumed to
succeed; `Write` errors only on the caller-contract violation (a single
write larger than the maximum segment size), exactly as in the source.
-/

/-- The `LogrotateOption` fields the claims depend on.  `maxSize` is the
value after `NewLogrotateWriter` applied the default (it is positive). -/
structure LogrotateOption where
  maxSize : Nat
  maxBackups : Nat
  maxAge : Int
  compress : Bool
  fileHeader : List Nat
deriving DecidableEq

/-- Mutable state of the writer plus the relevant slice of the filesystem:
`handleOpen` models `l.file != nil`, `size` models `l.size`, `active` is the
content of `l.filename` on disk (`none` when absent), `backups` the contents
renamed away by rotations, most recent first. -/
structure LogrotateState where
  handleOpen : Bool
  size : Nat
  active : Option (List Nat)
  backups : List (List Nat)
deriving DecidableEq

/-- The `openNew` method: rename an existing active file to its backup name,
create a fresh active file, and write the configured header. -/
def LogrotateWriter.openNew (o : LogrotateOption) (s : LogrotateState) :
    LogrotateState :=
  let backups :=
    match s.active with
    | some c => c :: s.backups
    | none => s.backups
  { handleOpen := true
    size := o.fileHeader.length
    active := some o.fileHeader
    backups := backups }

/-- The `rotate` method: close the handle, then `openNew` (the background
`TryMill` it spawns is modelled separately). -/
def LogrotateWriter.rotate (o : LogrotateOption) (s : LogrotateState) :
    LogrotateState :=
  LogrotateWriter.openNew o { s with handleOpen := false }

/-- The `openExistingOrNew` method: stat the file; absent means `openNew`;
a file whose size plus the pending write reaches the maximum is rotated
first (note the `>=` comparison in the source); otherwise the file is
reopened for append and its size adopted. -/
def LogrotateWriter.openExistingOrNew (o : LogrotateOption)
    (s : LogrotateState) (writeLen : Nat) : LogrotateState :=
  match s.active with
  | none => LogrotateWriter.openNew o s
  | some c =>
      if c.length + writeLen ≥ o.maxSize then LogrotateWriter.rotate o s
      else { s with handleOpen := true, size := c.length }

/-- The `write` method.  Returns the new state, the byte count reported, and
whether the oversized-write error was returned.  Mirrors the source: reject
oversized writes; open the file if no handle is held; rotate when the
tracked size plus the write would exceed the maximum (strict `>`); append. -/
def LogrotateWriter.write (o : LogrotateOption) (s : LogrotateState)
    (p : List Nat) : LogrotateState × Nat × Bool :=
  if p.length > o.maxSize then (s, 0, true)
  else
    let s1 := if s.handleOpen then s else LogrotateWriter.openExistingOrNew o s p.length
    let s2 := if s1.size + p.length > o.maxSize then LogrotateWriter.rotate o s1 else s1
    ({ s2 with
        active := some ((s2.active.getD []) ++ p)
        size := s2.size + p.length },
      p.length, false)

/-! ### The retention pass (`mill`)

Models the pure selection logic of `LogrotateWriter.mill`: which backups are
removed and which remain.  A backup is a pair of embedded timestamp (an
integer instant, as recovered by `timeFromName`) and file name.  The list is
the output of `oldLogFiles`, i.e. sorted newest first.
-/

structure LogInfo where
  t : Int
  name : List Nat
deriving DecidableEq

/-- Go `strings.TrimSuffix(name, ".zst")`. -/
def trimZst (n : List Nat) : List Nat :=
  if [46, 122, 115, 116].isSuffixOf n then n.take (n.length - 4) else n

/-- The max-backup-count pass of `mill`: walk the files newest first,
recording each name (with the compression suffix trimmed) in the
`preserved` set; once the set exceeds `maxBackups`, files are marked for
removal.  Returns (removed, remaining) in traversal order. -/
def millCountPass (mb : Nat) (preserved : List (List Nat)) :
    List LogInfo → List LogInfo × List LogInfo
  | [] => ([], [])
  | f :: fs =>
      let fn := trimZst f.name
      let preserved' := if fn ∈ preserved then preserved else preserved ++ [fn]
      let rec_ := millCountPass mb preserved' fs
      if preserved'.length > mb then (f :: rec_.1, rec_.2)
      else (rec_.1, f :: rec_.2)

/-- The max-age pass of `mill`: among the files kept by the count pass, mark
for removal those whose timestamp is before the cutoff `now - MaxAge`. -/
def millAgePass (cutoff : Int) : List LogInfo → List LogInfo × List LogInfo
  | [] => ([], [])
  | f :: fs =>
      let rec_ := millAgePass cutoff fs
      if f.t < cutoff then (f :: rec_.1, rec_.2)
      else (rec_.1, f :: rec_.2)

/-- The removal selection of `mill`: nothing is removed when no retention
option is set (the early return); otherwise the count pass runs when
`0 < MaxBackups < len(files)` and the age pass when `MaxAge > 0`.  Returns
(removed, retained). -/
def millSelect (o : LogrotateOption) (now : Int) (files : List LogInfo) :
    List LogInfo × List LogInfo :=
  if o.maxBackups = 0 ∧ o.maxAge = 0 ∧ o.compress = false then ([], files)
  else
    let p1 :=
      if 0 < o.maxBackups ∧ o.maxBackups < files.length then
        millCountPass o.maxBackups [] files
      else ([], files)
    let p2 :=
      if 0 < o.maxAge then millAgePass (now - o.maxAge) p1.2
      else ([], p1.2)
    (p1.1 ++ p2.1, p2.2)

/-! ### Path cleaning and the inotify watch registry

Models `filepath.Clean` and `filepath.Dir` (the Go standard library's
lexical path cleaning, Unix rules) and `INotify.AddWatch` from `inotify.go`.
Paths are byte lists; 47 is the slash.  The Go maps `targets`, `dirWd` and
`wdDir` are association lists; `syscall.InotifyAddWatch` is modelled as
allocation of a fresh watch descriptor from a counter.
-/

/-- Split a path on slash bytes. -/
def splitSlash : List Nat → List (List Nat)
  | [] => [[]]
  | b :: bs =>
      let r := splitSlash bs
      if b = 47 then [] :: r
      else
        match r with
        | x :: xs => (b :: x) :: xs
        | [] => [[b]]

/-- Core of `filepath.Clean`: process the slash-separated elements, dropping
empty and dot elements, resolving dot-dot against the accumulator (dot-dot
at the root vanishes, dot-dot at the start of a relative path is kept). -/
def cleanParts (rooted : Bool) : List (List Nat) → List (List Nat) → List (List Nat)
  | acc, [] => acc.reverse
  | acc, e :: es =>
      if e = [] ∨ e = [46] then cleanParts rooted acc es
      else if e = [46, 46] then
        match acc with
        | a :: as =>
            if a = [46, 46] then cleanParts rooted (e :: a :: as) es
            else cleanParts rooted as es
        | [] =>
            if rooted then cleanParts rooted [] es
            else cleanParts rooted [e] es
      else cleanParts rooted (e :: acc) es

/-- Join path elements with slashes. -/
def joinSlash : List (List Nat) → List Nat
  | [] => []
  | [x] => x
  | x :: xs => x ++ 47 :: joinSlash xs

/-- Go `filepath.Clean` (Unix). -/
def filepathClean (p : List Nat) : List Nat :=
  let rooted := p.head? = some 47
  let parts := cleanParts rooted [] (splitSlash p)
  let joined := joinSlash parts
  if rooted then 47 :: joined
  else if joined = [] then [46]
  else joined

/-- Go `filepath.Dir` (Unix): everything up to and including the last slash,
cleaned; a path without a slash has directory dot. -/
def filepathDir (p : List Nat) : List Nat :=
  filepathClean ((p.reverse.dropWhile (fun b => b ≠ 47)).reverse)

/-- Association-list lookup for the Go maps of the watch registry. -/
def afind {β : Type} : List (List Nat × β) → List Nat → Option β
  | [], _ => none
  | (k, v) :: rest, key => if k = key then some v else afind rest key

/-- The `watches` tables of `INotify` plus a fresh-descriptor counter
standing in for the kernel's watch-descriptor allocation. -/
structure Watches where
  wdDir : List (Nat × List Nat)
  dirWd : List (List Nat × Nat)
  targets : List (List Nat × Nat)
  nextWd : Nat
deriving DecidableEq

def emptyWatches : Watches :=
  { wdDir := [], dirWd := [], targets := [], nextWd := 1 }

/-- The `INotify.AddWatch` method: clean the path; an already-registered
target yields the `ErrWatched` error (second component `true`) and leaves
the tables unchanged; otherwise the containing directory's watch is reused
when present, and a fresh directory watch is created when not.  The op mask
is passed to the kernel only and does not affect the tables. -/
def INotify.AddWatch (w : Watches) (path : List Nat) (op : Nat) :
    Watches × Bool :=
  let _ := op
  let t := filepathClean path
  if (afind w.targets t).isSome then (w, true)
  else
    let dir := filepathDir t
    match afind w.dirWd dir with
    | some wd => ({ w with targets := (t, wd) :: w.targets }, false)
    | none =>
        let wd := w.nextWd
        ({ w with
            targets := (t, wd) :: w.targets
            dirWd := (dir, wd) :: w.dirWd
            wdDir := (wd, dir) :: w.wdDir
            nextWd := w.nextWd + 1 }, false)

/-- The startup watch registration of `main.go` lines 81-95: watch the
configuration path; when the TLS certificate or the TLS key setting is
non-empty (the source tests them with a disjunction), watch both of them.
Any `AddWatch` error aborts startup (second component `true`). -/
def startupWatch (configPath cert key : List Nat) : Watches × Bool :=
  let r0 := INotify.AddWatch emptyWatches configPath 0
  if r0.2 then (r0.1, true)
  else if cert ≠ [] ∨ key ≠ [] then
    let r1 := INotify.AddWatch r0.1 cert 0
    if r1.2 then (r1.1, true)
    else
      let r2 := INotify.AddWatch r1.1 key 0
      (r2.1, r2.2)
  else (r0.1, false)

/-! ### Backup names: timestamp formatting and parsing

Models the backup-name machinery of the log writer with the default
`BackupTimeFormat` (`2006-01-02T15-04-05.000`, the format the repository
uses: `log.Open` never sets a custom one).  `formatTimestamp` models
`time.Time.Format` on that layout for a UTC instant; `parseTimestamp` models
`time.Parse`, including its field-range validation.  An instant carries the
calendar fields down to the millisecond plus the sub-millisecond nanoseconds
that the format discards.
-/

structure TimeParts where
  year : Nat
  month : Nat
  day : Nat
  hour : Nat
  minute : Nat
  second : Nat
  millis : Nat
  nanos : Nat
deriving DecidableEq

def isLeapYear (y : Nat) : Bool :=
  (y % 4 = 0 && y % 100 ≠ 0) || y % 400 = 0

def daysInMonth (y m : Nat) : Nat :=
  if m = 2 then (if isLeapYear y then 29 else 28)
  else if m = 4 ∨ m = 6 ∨ m = 9 ∨ m = 11 then 30
  else 31

/-- An instant representable in the fixed-width layout, with fields in the
ranges `time.Parse` accepts. -/
def TimeParts.Valid (t : TimeParts) : Prop :=
  t.year ≤ 9999 ∧ 1 ≤ t.month ∧ t.month ≤ 12 ∧ 1 ≤ t.day ∧
    t.day ≤ daysInMonth t.year t.month ∧ t.hour ≤ 23 ∧ t.minute ≤ 59 ∧
    t.second ≤ 59 ∧ t.millis ≤ 999 ∧ t.nanos ≤ 999999

instance (t : TimeParts) : Decidable t.Valid := by
  unfold TimeParts.Valid
  infer_instance

/-- Truncation to the millisecond precision of the format. -/
def TimeParts.truncMs (t : TimeParts) : TimeParts :=
  { t with nanos := 0 }

def pad2 (n : Nat) : List Nat :=
  [48 + n / 10, 48 + n % 10]

def pad3 (n : Nat) : List Nat :=
  [48 + n / 100, 48 + n / 10 % 10, 48 + n % 10]

def pad4 (n : Nat) : List Nat :=
  [48 + n / 1000, 48 + n / 100 % 10, 48 + n / 10 % 10, 48 + n % 10]

/-- Go `t.UTC().Format("2006-01-02T15-04-05.000")`. -/
def formatTimestamp (t : TimeParts) : List Nat :=
  pad4 t.year ++ 45 :: pad2 t.month ++ 45 :: pad2 t.day ++ 84 :: pad2 t.hour
    ++ 45 :: pad2 t.minute ++ 45 :: pad2 t.second ++ 46 :: pad3 t.millis

/-- Read a fixed-width run of decimal digit bytes (Go `getnum` with a fixed
layout width). -/
def read2 : List Nat → Option (Nat × List Nat)
  | a :: b :: rest =>
      if 48 ≤ a ∧ a ≤ 57 ∧ 48 ≤ b ∧ b ≤ 57 then
        some (10 * (a - 48) + (b - 48), rest)
      else none
  | _ => none

def read3 : List Nat → Option (Nat × List Nat)
  | a :: b :: c :: rest =>
      if 48 ≤ a ∧ a ≤ 57 ∧ 48 ≤ b ∧ b ≤ 57 ∧ 48 ≤ c ∧ c ≤ 57 then
        some (100 * (a - 48) + 10 * (b - 48) + (c - 48), rest)
      else none
  | _ => none

def read4 : List Nat → Option (Nat × List Nat)
  | a :: b :: c :: d :: rest =>
      if 48 ≤ a ∧ a ≤ 57 ∧ 48 ≤ b ∧ b ≤ 57 ∧ 48 ≤ c ∧ c ≤ 57 ∧ 48 ≤ d ∧ d ≤ 57 then
        some (1000 * (a - 48) + 100 * (b - 48) + 10 * (c - 48) + (d - 48), rest)
      else none
  | _ => none

/-- Consume one expected separator byte. -/
def sepByte (c : Nat) : List Nat → Option (List Nat)
  | b :: rest => if b = c then some rest else none
  | [] => none

/-- Go `time.Parse("2006-01-02T15-04-05.000", ts)`: fixed-width fields,
fixed separators, nothing left over, and the range checks `time.Parse`
performs (month, per-month day count, hour, minute, second). -/
def parseTimestamp (s : List Nat) : Option TimeParts :=
  (read4 s).bind (fun yp =>
  (sepByte 45 yp.2).bind (fun s2 =>
  (read2 s2).bind (fun mop =>
  (sepByte 45 mop.2).bind (fun s4 =>
  (read2 s4).bind (fun dp =>
  (sepByte 84 dp.2).bind (fun s6 =>
  (read2 s6).bind (fun hp =>
  (sepByte 45 hp.2).bind (fun s8 =>
  (read2 s8).bind (fun mip =>
  (sepByte 45 mip.2).bind (fun s10 =>
  (read2 s10).bind (fun sep_ =>
  (sepByte 46 sep_.2).bind (fun s12 =>
  (read3 s12).bind (fun msp =>
    if msp.2 = [] then
      if 1 ≤ mop.1 ∧ mop.1 ≤ 12 ∧ 1 ≤ dp.1 ∧ dp.1 ≤ daysInMonth yp.1 mop.1 ∧
          hp.1 ≤ 23 ∧ mip.1 ≤ 59 ∧ sep_.1 ≤ 59 then
        some ⟨yp.1, mop.1, dp.1, hp.1, mip.1, sep_.1, msp.1, 0⟩
      else none
    else none)))))))))))))

/-- The `.zst` compression suffix. -/
def zstSuffix : List Nat := [46, 122, 115, 116]

/-- The `timeFromName` method: check prefix and extension, slice out the
middle, parse it. -/
def timeFromName (filename pfx ext : List Nat) : Option TimeParts :=
  if pfx.isPrefixOf filename then
    if ext.isSuffixOf filename then
      parseTimestamp ((filename.take (filename.length - ext.length)).drop pfx.length)
    else none
  else none

/-- The base name produced by `backupName` at instant `t` (the directory
component that `filepath.Join` prepends is not part of the name that
`oldLogFiles` matches against). -/
def backupBase (pfx ext : List Nat) (t : TimeParts) : List Nat :=
  pfx ++ formatTimestamp t ++ ext

/-- The per-entry classification of `oldLogFiles`: first try the plain
extension, then the extension followed by the compression suffix. -/
def oldLogClassify (pfx ext name : List Nat) : Option TimeParts :=
  match timeFromName name pfx ext with
  | some t => some t
  | none => timeFromName name pfx (ext ++ zstSuffix)

/-- The recognised entries of `oldLogFiles` (sorting aside): each directory
entry whose name parses contributes its timestamp and name. -/
def oldLogFilesModel (pfx ext : List Nat) (entries : List (List Nat)) :
    List (TimeParts × List Nat) :=
  entries.filterMap (fun n => (oldLogClassify pfx ext n).map (fun t => (t, n)))

/-! ## Claims -/

/-- C7: a write whose length exceeds the configured maximum segment size is
rejected: the error is returned, zero bytes are reported written, and the
writer state (active segment, tracked size, backups) is unchanged — no
rotation and no append happen. -/
theorem C7_oversized_write_rejected (o : LogrotateOption) (s : LogrotateState)
    (p : List Nat) (h : p.length > o.maxSize) :
    LogrotateWriter.write o s p = (s, 0, true) := by
  simp [LogrotateWriter.write, h]

/-- Witness for C7 at a concrete oversized write. -/
theorem C7_oversized_write_rejected_witness :
    LogrotateWriter.write ⟨10, 0, 0, false, []⟩ ⟨false, 0, none, []⟩
        [1, 2, 3, 4, 5, 6, 7, 8, 9, 10, 11] =
      (⟨false, 0, none, []⟩, 0, true) :=
  C7_oversized_write_rejected _ _ _ (by decide)

/-- C4 (amended): after any successful write the tracked size of the active
segment is at most the configured maximum, provided the configured file
header together with the write fits into a segment (in particular whenever
no file header is configured).  The unamended claim fails when a configured
header plus the write exceeds the maximum (see the counterexample). -/
theorem C4_size_invariant (o : LogrotateOption) (s : LogrotateState)
    (p : List Nat) (h : o.fileHeader.length + p.length ≤ o.maxSize) :
    ((LogrotateWriter.write o s p).1).size ≤ o.maxSize ∧
      (LogrotateWriter.write o s p).2.2 = false := by
  have hp : ¬ p.length > o.maxSize := by omega
  obtain ⟨ho, sz, act, bk⟩ := s
  cases act with
  | none =>
      cases ho <;>
        simp only [LogrotateWriter.write, LogrotateWriter.openExistingOrNew,
          LogrotateWriter.rotate, LogrotateWriter.openNew, hp, if_false] <;>
        split_ifs <;> simp_all <;> omega
  | some c =>
      cases ho <;>
        simp only [LogrotateWriter.write, LogrotateWriter.openExistingOrNew,
          LogrotateWriter.rotate, LogrotateWriter.openNew, hp, if_false] <;>
        split_ifs <;> simp_all <;> omega

/-- Witness for C4 at a concrete write that triggers a rotation. -/
theorem C4_size_invariant_witness :
    ((LogrotateWriter.write ⟨10, 0, 0, false, [7, 7]⟩ ⟨true, 8, some [1, 2, 3, 4, 5, 6, 7, 8], []⟩
        [9, 9, 9]).1).size ≤ 10 :=
  (C4_size_invariant ⟨10, 0, 0, false, [7, 7]⟩ ⟨true, 8, some [1, 2, 3, 4, 5, 6, 7, 8], []⟩
    [9, 9, 9] (by decide)).1

/-- C4 counterexample: with maximum size 10 and an 8-byte file header, the
very first write of 5 bytes succeeds yet leaves the tracked size at 13,
exceeding the maximum — the post-rotation append does not account for the
header the rotation wrote. -/
theorem C4_counterexample :
    (LogrotateWriter.write ⟨10, 0, 0, false, [1, 1, 1, 1, 1, 1, 1, 1]⟩
        ⟨false, 0, none, []⟩ [2, 2, 2, 2, 2]).2.2 = false ∧
    ((LogrotateWriter.write ⟨10, 0, 0, false, [1, 1, 1, 1, 1, 1, 1, 1]⟩
        ⟨false, 0, none, []⟩ [2, 2, 2, 2, 2]).1).size = 13 := by
  decide

/-- C3 (amended): for a write of `N` bytes with `N` at most the maximum and
the configured header plus `N` fitting a segment: when the handle is open,
`size + N ≤ max` appends without rotating and `size + N > max` rotates
first, after which the new active file holds header plus write (size
`header + N`, which is `N` with the default empty header); when the handle
is reopened from disk, rotation happens already at `diskSize + N ≥ max`
(boundary included — the source uses `>=` there, unlike the strict `>` of
the in-memory check; see the counterexample). -/
theorem C3_write_rotation (o : LogrotateOption) (s : LogrotateState)
    (c p : List Nat) (hact : s.active = some c)
    (hhdr : o.fileHeader.length + p.length ≤ o.maxSize) :
    (s.handleOpen = true → s.size = c.length →
      ((s.size + p.length ≤ o.maxSize →
         LogrotateWriter.write o s p =
           ({ s with active := some (c ++ p), size := s.size + p.length },
             p.length, false)) ∧
       (s.size + p.length > o.maxSize →
         LogrotateWriter.write o s p =
           ({ handleOpen := true, size := o.fileHeader.length + p.length,
              active := some (o.fileHeader ++ p), backups := c :: s.backups },
             p.length, false)))) ∧
    (s.handleOpen = false →
      ((c.length + p.length < o.maxSize →
         LogrotateWriter.write o s p =
           ({ handleOpen := true, size := c.length + p.length,
              active := some (c ++ p), backups := s.backups },
             p.length, false)) ∧
       (c.length + p.length ≥ o.maxSize →
         LogrotateWriter.write o s p =
           ({ handleOpen := true, size := o.fileHeader.length + p.length,
              active := some (o.fileHeader ++ p), backups := c :: s.backups },
             p.length, false)))) := by
  have hp : ¬ p.length > o.maxSize := by omega
  obtain ⟨ho, sz, act, bk⟩ := s
  cases hact
  constructor
  · rintro rfl rfl
    constructor <;> intro hcmp <;>
      simp only [LogrotateWriter.write, LogrotateWriter.openExistingOrNew,
        LogrotateWriter.rotate, LogrotateWriter.openNew, hp, if_false] <;>
      split_ifs <;> simp_all <;> omega
  · rintro rfl
    constructor <;> intro hcmp <;>
      simp only [LogrotateWriter.write, LogrotateWriter.openExistingOrNew,
        LogrotateWriter.rotate, LogrotateWriter.openNew, hp, if_false] <;>
      split_ifs <;> simp_all <;> omega

/-- Witness for C3: an in-bounds append on an open handle, concretely. -/
theorem C3_write_rotation_witness :
    LogrotateWriter.write ⟨10, 0, 0, false, []⟩ ⟨true, 3, some [1, 2, 3], []⟩ [4, 5] =
      (⟨true, 5, some [1, 2, 3, 4, 5], []⟩, 2, false) :=
  (((C3_write_rotation ⟨10, 0, 0, false, []⟩ ⟨true, 3, some [1, 2, 3], []⟩
      [1, 2, 3] [4, 5] rfl (by decide)).1 rfl rfl).1 (by decide))

/-- C3 counterexample: with the handle closed and an on-disk segment of 5
bytes, a 5-byte write with maximum 10 satisfies `size + N ≤ max`, yet the
reopen path rotates (the source compares with `>=`): the old content moves
to the backups, refuting the claim that no rotation occurs in this case. -/
theorem C3_counterexample :
    (5 : Nat) + 5 ≤ 10 ∧
    ((LogrotateWriter.write ⟨10, 0, 0, false, []⟩
        ⟨false, 5, some [1, 2, 3, 4, 5], []⟩ [6, 7, 8, 9, 10]).1).backups =
      [[1, 2, 3, 4, 5]] := by
  decide

/-- C2: on a received ChangeSignal the supervisor recomputes the fingerprint
and restarts if and only if it differs from the stored one: an equal
fingerprint leaves the state untouched (no cancellation, same generation),
a different fingerprint stores the new value, cancels the current generation
with cause ConfigChanged, and starts the next generation (a fresh context
derived from the root context, modelled by the incremented generation
number). -/
theorem C2_restart_iff_fingerprint_changed (st : SupervisorState)
    (cp : List Nat) (ts : List WatchTarget) :
    (fingerprint cp ts = st.hash → handleChanged st cp ts = st) ∧
    (fingerprint cp ts ≠ st.hash →
      handleChanged st cp ts =
        { hash := fingerprint cp ts
          generation := st.generation + 1
          cancelledLog := st.cancelledLog ++ [(st.generation, Cause.configChanged)] }) := by
  constructor <;> intro h <;> simp [handleChanged, h]

/-- Witness for C2: a concrete changed fingerprint restarts, recording the
cancellation of generation 0 with cause ConfigChanged. -/
theorem C2_restart_iff_fingerprint_changed_witness :
    handleChanged ⟨[], 0, []⟩ [99] [⟨[97], some [1]⟩] =
      ⟨[1], 1, [(0, Cause.configChanged)]⟩ :=
  (C2_restart_iff_fingerprint_changed ⟨[], 0, []⟩ [99] [⟨[97], some [1]⟩]).2
    (by decide)

/-- C8 refutation: the debounce goroutine never emits a ChangeSignal.  The
context is created with `context.WithTimeout(appCtx, duration)`, so its own
deadline expires no later than the moment the helper goroutine finishes its
`time.Sleep(duration)` and performs the non-blocking done-check; the check
therefore always sees a done context and returns without sending.  The
claimed "exactly one ChangeSignal once the stream quiets" is violated by
every event sequence. -/
theorem C8_debounce_never_emits (D : Int) (evs : List (Int × Int))
    (h : ∀ p ∈ evs, 0 ≤ p.2) : debounceEmitCount D evs = 0 := by
  induction evs with
  | nil => rfl
  | cons hd tl ih =>
      obtain ⟨e, d⟩ := hd
      have hd0 : 0 ≤ d := h (e, d) (by simp)
      have hdone : e + D ≤ e + d + D := by omega
      simp only [debounceEmitCount, ctxDoneAt, decide_eq_true hdone, Bool.true_or]
      simp only [Bool.true_eq_false, if_false, Nat.zero_add]
      exact ih (fun p hp => h p (List.mem_cons_of_mem _ hp))

/-- Witness for C8: a single raw event followed by quiet produces zero
ChangeSignals. -/
theorem C8_debounce_never_emits_witness :
    debounceEmitCount 200 [(0, 0)] = 0 :=
  C8_debounce_never_emits 200 [(0, 0)] (by decide)

/-- The configuration path used by the deployment model (`DefaultConfigPath`
of `settings/config.go`). -/
def cfgPathBytes : List Nat := strBytes ("config/config.json")

/-- C1 counterexample: altering a single byte of the configuration file need
not change the fingerprint.  The contents differ in exactly their third byte
(a trailing space versus a trailing newline), both decode to the same
canonical configuration, and the fingerprints coincide — refuting the claim
that altering any single byte of any watched target (including the
configuration file) yields a different fingerprint. -/
theorem C1_counterexample :
    ([123, 125, 32] : List Nat).length = ([123, 125, 10] : List Nat).length ∧
    ([123, 125, 32] : List Nat) ≠ [123, 125, 10] ∧
    fingerprint cfgPathBytes [⟨cfgPathBytes, some [123, 125, 32]⟩] =
      fingerprint cfgPathBytes [⟨cfgPathBytes, some [123, 125, 10]⟩] := by
  decide

/-- C1 (amended): with the traversal order of the watched targets fixed, the
fingerprint is unchanged exactly when the canonical configuration content
and the raw bytes of every other target are unchanged.  Altering a single
byte (in place) of any non-configuration target yields a different
fingerprint, and recomputing over byte streams whose canonical configuration
decodes equally (in particular over unchanged files) yields an equal
fingerprint. -/
theorem C1_fingerprint_sensitivity :
    (∀ (cp : List Nat) (pre suf : List WatchTarget) (q c1 c2 : List Nat),
      q ≠ cp → c1.length = c2.length → c1 ≠ c2 →
      fingerprint cp (pre ++ ⟨q, some c1⟩ :: suf) ≠
        fingerprint cp (pre ++ ⟨q, some c2⟩ :: suf)) ∧
    (∀ (cp : List Nat) (pre suf : List WatchTarget) (c1 c2 : Option (List Nat)),
      readSettings c1 = readSettings c2 →
      fingerprint cp (pre ++ ⟨cp, c1⟩ :: suf) =
        fingerprint cp (pre ++ ⟨cp, c2⟩ :: suf)) := by
  constructor
  · intro cp pre suf q c1 c2 hq hlen hne heq
    have hc1 : targetContribution cp ⟨q, some c1⟩ = c1 := by
      simp [targetContribution, hq]
    have hc2 : targetContribution cp ⟨q, some c2⟩ = c2 := by
      simp [targetContribution, hq]
    simp only [fingerprint, List.map_append, List.map_cons, List.flatten_append,
      List.flatten_cons, hc1, hc2] at heq
    exact hne (List.append_cancel_right (List.append_cancel_left heq))
  · intro cp pre suf c1 c2 hcanon
    have hc : targetContribution cp ⟨cp, c1⟩ = targetContribution cp ⟨cp, c2⟩ := by
      simp [targetContribution, hcanon]
    simp only [fingerprint, List.map_append, List.map_cons, hc]

/-- Witness for C1: a one-byte in-place change of a non-configuration target
changes the fingerprint, while a one-byte whitespace change of the
configuration file keeps it. -/
theorem C1_fingerprint_sensitivity_witness :
    (fingerprint [99] [⟨[97], some [48]⟩] ≠ fingerprint [99] [⟨[97], some [49]⟩]) ∧
    fingerprint [99] [⟨[99], some [123, 125, 32]⟩] =
      fingerprint [99] [⟨[99], some [123, 125, 10]⟩] :=
  ⟨C1_fingerprint_sensitivity.1 [99] [] [] [97] [48] [49] (by decide) rfl (by decide),
   C1_fingerprint_sensitivity.2 [99] [] [] (some [123, 125, 32]) (some [123, 125, 10])
     (by decide)⟩

/-- C6: AddWatch fails with AlreadyWatched exactly when the cleaned path is
already a registered target, and then leaves the tables unchanged; two
paths with distinct canonical forms in the same containing directory end up
sharing exactly one underlying directory watch: the second registration
reuses the watch descriptor of the first, the directory-watch table grows by
exactly one entry over the two registrations, and both targets map to that
descriptor. -/
theorem C6_addwatch_dedup_and_sharing :
    (∀ (w : Watches) (path : List Nat) (op : Nat),
      ((INotify.AddWatch w path op).2 = true ↔
        (afind w.targets (filepathClean path)).isSome) ∧
      ((afind w.targets (filepathClean path)).isSome →
        (INotify.AddWatch w path op).1 = w)) ∧
    (∀ (w : Watches) (p1 p2 : List Nat) (op1 op2 : Nat),
      filepathClean p1 ≠ filepathClean p2 →
      filepathDir (filepathClean p1) = filepathDir (filepathClean p2) →
      afind w.targets (filepathClean p1) = none →
      afind w.targets (filepathClean p2) = none →
      afind w.dirWd (filepathDir (filepathClean p1)) = none →
      (INotify.AddWatch w p1 op1).2 = false ∧
      (INotify.AddWatch (INotify.AddWatch w p1 op1).1 p2 op2).2 = false ∧
      afind ((INotify.AddWatch (INotify.AddWatch w p1 op1).1 p2 op2).1).targets
          (filepathClean p1) = some w.nextWd ∧
      afind ((INotify.AddWatch (INotify.AddWatch w p1 op1).1 p2 op2).1).targets
          (filepathClean p2) = some w.nextWd ∧
      afind ((INotify.AddWatch (INotify.AddWatch w p1 op1).1 p2 op2).1).dirWd
          (filepathDir (filepathClean p1)) = some w.nextWd ∧
      ((INotify.AddWatch (INotify.AddWatch w p1 op1).1 p2 op2).1).dirWd.length =
        w.dirWd.length + 1) := by
  constructor
  · intro w path op
    by_cases hs : (afind w.targets (filepathClean path)).isSome
    · constructor
      · simp [INotify.AddWatch, hs]
      · intro _
        simp [INotify.AddWatch, hs]
    · constructor
      · cases hd : afind w.dirWd (filepathDir (filepathClean path)) <;>
          simp [INotify.AddWatch, hs, hd]
      · intro h
        exact absurd h hs
  · intro w p1 p2 op1 op2 hne hdir h1 h2 hd
    have hs1 : ¬ (afind w.targets (filepathClean p1)).isSome = true := by
      simp [h1]
    have hs2 : ¬ (afind w.targets (filepathClean p2)).isSome = true := by
      simp [h2]
    simp only [INotify.AddWatch, hs1, if_false, h1, Option.isSome_none,
      Bool.false_eq_true, hd]
    simp only [afind, if_neg hne, h2, Option.isSome_none, Bool.false_eq_true,
      if_false, hdir, if_pos rfl]
    simp [afind, if_neg hne, hne, Ne.symm hne]

/-- Witness for C6: registering `a/b` and then `a/c` on a fresh registry
shares one directory watch, both targets mapping to descriptor 1. -/
theorem C6_addwatch_dedup_and_sharing_witness :
    afind ((INotify.AddWatch (INotify.AddWatch emptyWatches [97, 47, 98] 0).1
        [97, 47, 99] 0).1).targets (filepathClean [97, 47, 98]) = some 1 ∧
    afind ((INotify.AddWatch (INotify.AddWatch emptyWatches [97, 47, 98] 0).1
        [97, 47, 99] 0).1).targets (filepathClean [97, 47, 99]) = some 1 ∧
    ((INotify.AddWatch (INotify.AddWatch emptyWatches [97, 47, 98] 0).1
        [97, 47, 99] 0).1).dirWd.length = 1 :=
  have h := C6_addwatch_dedup_and_sharing.2 emptyWatches [97, 47, 98] [97, 47, 99]
    0 0 (by decide) (by decide) rfl rfl rfl
  ⟨h.2.2.1, h.2.2.2.1, h.2.2.2.2.2⟩

/-- C9 counterexample: with a non-empty TLS certificate setting `c` and an
empty TLS key setting, startup succeeds and registers three targets: the
canonical empty key path (the dot directory), the certificate path and the
configuration path — whereas the claim says that with one of the two TLS
settings empty neither TLS path is registered. -/
theorem C9_counterexample :
    (startupWatch cfgPathBytes [99] []).2 = false ∧
    ((startupWatch cfgPathBytes [99] []).1).targets.map Prod.fst =
      [[46], [99], cfgPathBytes] := by
  decide

/-- Registering an unregistered path never errors and prepends the cleaned
path, bound to some watch descriptor, to the target table. -/
theorem addWatch_fresh (w : Watches) (p : List Nat) (op : Nat)
    (h : afind w.targets (filepathClean p) = none) :
    (INotify.AddWatch w p op).2 = false ∧
    ∃ wd, ((INotify.AddWatch w p op).1).targets =
      (filepathClean p, wd) :: w.targets := by
  have hs : ¬ (afind w.targets (filepathClean p)).isSome = true := by
    simp [h]
  cases hd : afind w.dirWd (filepathDir (filepathClean p)) with
  | none =>
      exact ⟨by simp [INotify.AddWatch, hs, hd],
        w.nextWd, by simp [INotify.AddWatch, hs, hd]⟩
  | some wd =>
      exact ⟨by simp [INotify.AddWatch, hs, hd],
        wd, by simp [INotify.AddWatch, hs, hd]⟩

/-- C9 (amended): at startup the configuration path is always registered;
when both TLS settings are empty it is the only watched target; when at
least one of the certificate and key settings is non-empty (the source
tests the pair with a disjunction) both are passed to AddWatch, so -
provided the three canonical paths are pairwise distinct - startup
succeeds with exactly the three canonical paths registered (an empty
member of the TLS pair is registered under its canonical form, the dot
path). -/
theorem C9_startup_watch_set (configPath cert key : List Nat) :
    (cert = [] ∧ key = [] →
      (startupWatch configPath cert key).2 = false ∧
      ((startupWatch configPath cert key).1).targets.map Prod.fst =
        [filepathClean configPath]) ∧
    ((cert ≠ [] ∨ key ≠ []) →
      filepathClean cert ≠ filepathClean configPath →
      filepathClean key ≠ filepathClean configPath →
      filepathClean key ≠ filepathClean cert →
      (startupWatch configPath cert key).2 = false ∧
      ((startupWatch configPath cert key).1).targets.map Prod.fst =
        [filepathClean key, filepathClean cert, filepathClean configPath]) := by
  constructor
  · rintro ⟨rfl, rfl⟩
    simp [startupWatch, INotify.AddWatch, emptyWatches, afind]
  · intro hne hc hk hkc
    obtain ⟨he0, wd0, ht0⟩ :=
      addWatch_fresh emptyWatches configPath 0 rfl
    obtain ⟨he1, wd1, ht1⟩ :=
      addWatch_fresh (INotify.AddWatch emptyWatches configPath 0).1 cert 0
        (by rw [ht0]; simp [emptyWatches, afind, Ne.symm hc])
    obtain ⟨he2, wd2, ht2⟩ :=
      addWatch_fresh
        (INotify.AddWatch (INotify.AddWatch emptyWatches configPath 0).1 cert 0).1
        key 0
        (by rw [ht1, ht0]; simp [emptyWatches, afind, Ne.symm hk, Ne.symm hkc])
    simp only [startupWatch, he0, Bool.false_eq_true, if_false, hne, if_true]
    rw [if_neg (by simp [he1])]
    refine ⟨he2, ?_⟩
    rw [ht2, ht1, ht0]
    simp [emptyWatches]

/-- Witness for C9: a concrete startup with certificate `c` and key `k`
registers exactly the three canonical paths. -/
theorem C9_startup_watch_set_witness :
    (startupWatch cfgPathBytes [99] [107]).2 = false ∧
    ((startupWatch cfgPathBytes [99] [107]).1).targets.map Prod.fst =
      [[107], [99], cfgPathBytes] :=
  (C9_startup_watch_set cfgPathBytes [99] [107]).2 (Or.inl (by decide))
    (by decide) (by decide) (by decide)

/-- Count of files strictly newer than `f` in a directory listing. -/
def newerCount (f : LogInfo) (files : List LogInfo) : Nat :=
  files.countP (fun g => decide (f.t < g.t))

/-- The count pass on files with pairwise-distinct trimmed names and none of
them preserved yet keeps the first `mb - preserved` files and removes the
rest. -/
theorem millCountPass_eq (mb : Nat) (preserved : List (List Nat))
    (fs : List LogInfo)
    (hfresh : ∀ f ∈ fs, trimZst f.name ∉ preserved)
    (hnodup : (fs.map (fun f => trimZst f.name)).Nodup) :
    millCountPass mb preserved fs =
      (fs.drop (mb - preserved.length), fs.take (mb - preserved.length)) := by
  induction fs generalizing preserved with
  | nil => simp [millCountPass]
  | cons f fs ih =>
      have hf : trimZst f.name ∉ preserved := hfresh f (by simp)
      have hnodup' : (fs.map (fun f => trimZst f.name)).Nodup :=
        (List.nodup_cons.mp (by simpa using hnodup)).2
      have hhead : trimZst f.name ∉ fs.map (fun f => trimZst f.name) :=
        (List.nodup_cons.mp (by simpa using hnodup)).1
      have hfresh' : ∀ g ∈ fs, trimZst g.name ∉ preserved ++ [trimZst f.name] := by
        intro g hg
        simp only [List.mem_append, List.mem_singleton]
        rintro (h | h)
        · exact hfresh g (List.mem_cons_of_mem _ hg) h
        · exact hhead (h ▸ List.mem_map_of_mem _ hg)
      rw [millCountPass]
      simp only [if_neg hf]
      rw [ih (preserved ++ [trimZst f.name]) hfresh' hnodup']
      simp only [List.length_append, List.length_cons, List.length_nil]
      by_cases hgt : mb < preserved.length + 1
      · rw [if_pos (by omega)]
        have h1 : mb - preserved.length = 0 := by omega
        have h2 : mb - (preserved.length + 1) = 0 := by omega
        simp [h1, h2]
      · rw [if_neg (by omega)]
        have h1 : mb - preserved.length = (mb - (preserved.length + 1)) + 1 := by
          omega
        rw [h1]
        simp [List.drop_succ_cons, List.take_succ_cons]

/-- The age pass removes exactly the files older than the cutoff. -/
theorem millAgePass_eq (cutoff : Int) (fs : List LogInfo) :
    millAgePass cutoff fs =
      (fs.filter (fun f => decide (f.t < cutoff)),
       fs.filter (fun f => ! decide (f.t < cutoff))) := by
  induction fs with
  | nil => simp [millAgePass]
  | cons f fs ih =>
      rw [millAgePass, ih]
      by_cases hf : f.t < cutoff <;> simp [hf, List.filter_cons]

/-- On a newest-first list, membership in the dropped tail is equivalent to
having at least `mb` strictly newer entries. -/
theorem mem_drop_iff_newerCount (files : List LogInfo) (mb : Nat) (f : LogInfo)
    (hsorted : files.Pairwise (fun a b => b.t < a.t)) (hf : f ∈ files) :
    f ∈ files.drop mb ↔ mb ≤ newerCount f files := by
  induction files generalizing mb with
  | nil => cases hf
  | cons a rest ih =>
      obtain ⟨ha, hrest⟩ := List.pairwise_cons.mp hsorted
      rcases List.mem_cons.mp hf with rfl | hmem
      · have hz : List.countP (fun g => decide (f.t < g.t)) rest = 0 :=
          List.countP_eq_zero.mpr (fun g hg => by
            simp only [decide_eq_true_eq]
            exact not_lt.mpr (le_of_lt (ha g hg)))
        have hcnt : newerCount f (f :: rest) = 0 := by
          simp [newerCount, List.countP_cons, hz]
        rw [hcnt]
        cases mb with
        | zero => simp
        | succ n =>
            simp only [List.drop_succ_cons]
            constructor
            · intro hdrop
              exact absurd (ha f (List.mem_of_mem_drop hdrop)) (lt_irrefl f.t)
            · intro h
              omega
      · have hlt : f.t < a.t := ha f hmem
        have hcnt : newerCount f (a :: rest) = newerCount f rest + 1 := by
          simp [newerCount, List.countP_cons, hlt]
        rw [hcnt]
        cases mb with
        | zero => simpa using List.mem_cons_of_mem a hf
        | succ n =>
            simp only [List.drop_succ_cons]
            rw [ih n hrest hmem]
            omega

/-- On a duplicate-free list an element is in the taken head exactly when it
is not in the dropped tail. -/
theorem mem_take_iff_not_mem_drop {α : Type} (l : List α) (n : Nat)
    (hnd : l.Nodup) (x : α) (hx : x ∈ l) :
    x ∈ l.take n ↔ x ∉ l.drop n := by
  have hsplit := List.take_append_drop n l
  have hnd2 : (l.take n ++ l.drop n).Nodup := by rw [hsplit]; exact hnd
  have hdisj := (List.nodup_append.mp hnd2).2.2
  constructor
  · intro ht hd
    exact hdisj ht hd
  · intro hdnot
    rcases List.mem_append.mp (by rw [hsplit]; exact hx :
        x ∈ l.take n ++ l.drop n) with ht | hd
    · exact ht
    · exact absurd hd hdnot

/-- C5: over backups listed newest first with pairwise-distinct embedded
timestamps (hence distinct trimmed names), the cleanup pass removes exactly
the backups that are beyond the retention count (at least MaxBackups
strictly newer backups exist, with the count pass active only when
0 < MaxBackups < number of backups) or are older than `now - MaxAge` (when
MaxAge is set), and retains exactly the others. -/
theorem C5_retention (o : LogrotateOption) (now : Int) (files : List LogInfo)
    (hsorted : files.Pairwise (fun a b => b.t < a.t))
    (hnames : (files.map (fun f => trimZst f.name)).Nodup)
    (f : LogInfo) :
    (f ∈ (millSelect o now files).1 ↔
      f ∈ files ∧
        ((0 < o.maxBackups ∧ o.maxBackups < files.length ∧
            o.maxBackups ≤ newerCount f files) ∨
         (0 < o.maxAge ∧ f.t < now - o.maxAge))) ∧
    (f ∈ (millSelect o now files).2 ↔
      f ∈ files ∧
        ¬((0 < o.maxBackups ∧ o.maxBackups < files.length ∧
             o.maxBackups ≤ newerCount f files) ∨
          (0 < o.maxAge ∧ f.t < now - o.maxAge))) := by
  have hnd : files.Nodup := List.Nodup.of_map _ hnames
  by_cases hzero : o.maxBackups = 0 ∧ o.maxAge = 0 ∧ o.compress = false
  · have h1 := hzero.1
    have h2 := hzero.2.1
    constructor
    · simp [millSelect, hzero, h1, h2]
    · simp [millSelect, hzero, h1, h2]
  · simp only [millSelect, if_neg hzero]
    by_cases hcnt : 0 < o.maxBackups ∧ o.maxBackups < files.length
    · rw [if_pos hcnt,
        millCountPass_eq o.maxBackups [] files (by simp) hnames]
      simp only [List.length_nil, Nat.sub_zero]
      by_cases hage : 0 < o.maxAge
      · rw [if_pos hage, millAgePass_eq]
        constructor
        · simp only [List.mem_append, List.mem_filter, decide_eq_true_eq]
          constructor
          · rintro (hdrop | ⟨htake, hcold⟩)
            · have hmemf : f ∈ files := List.mem_of_mem_drop hdrop
              exact ⟨hmemf, Or.inl ⟨hcnt.1, hcnt.2,
                (mem_drop_iff_newerCount files o.maxBackups f hsorted hmemf).mp hdrop⟩⟩
            · exact ⟨List.mem_of_mem_take htake, Or.inr ⟨hage, hcold⟩⟩
          · rintro ⟨hmemf, (⟨_, _, h3⟩ | ⟨_, hcold⟩)⟩
            · exact Or.inl
                ((mem_drop_iff_newerCount files o.maxBackups f hsorted hmemf).mpr h3)
            · rcases List.mem_append.mp
                  (by rw [List.take_append_drop]; exact hmemf :
                    f ∈ files.take o.maxBackups ++ files.drop o.maxBackups) with
                htake | hdrop
              · exact Or.inr ⟨htake, hcold⟩
              · exact Or.inl hdrop
        · simp only [List.mem_filter, Bool.not_eq_true', decide_eq_false_iff_not]
          constructor
          · rintro ⟨htake, hwarm⟩
            refine ⟨List.mem_of_mem_take htake, ?_⟩
            rintro (⟨_, _, h3⟩ | ⟨_, hcold⟩)
            · exact absurd ((mem_drop_iff_newerCount files o.maxBackups f hsorted
                  (List.mem_of_mem_take htake)).mpr h3)
                ((mem_take_iff_not_mem_drop files o.maxBackups hnd f
                  (List.mem_of_mem_take htake)).mp htake)
            · exact hwarm hcold
          · rintro ⟨hmemf, hnot⟩
            have hnotdrop : f ∉ files.drop o.maxBackups := by
              intro hdrop
              exact hnot (Or.inl ⟨hcnt.1, hcnt.2,
                (mem_drop_iff_newerCount files o.maxBackups f hsorted hmemf).mp hdrop⟩)
            refine ⟨(mem_take_iff_not_mem_drop files o.maxBackups hnd f hmemf).mpr
              hnotdrop, ?_⟩
            intro hcold
            exact hnot (Or.inr ⟨hage, hcold⟩)
      · rw [if_neg hage]
        constructor
        · simp only [List.append_nil, List.mem_append]
          constructor
          · intro hdrop
            have hmemf : f ∈ files := List.mem_of_mem_drop hdrop
            exact ⟨hmemf, Or.inl ⟨hcnt.1, hcnt.2,
              (mem_drop_iff_newerCount files o.maxBackups f hsorted hmemf).mp hdrop⟩⟩
          · rintro ⟨hmemf, (⟨_, _, h3⟩ | ⟨h1, _⟩)⟩
            · exact (mem_drop_iff_newerCount files o.maxBackups f hsorted hmemf).mpr h3
            · exact absurd h1 hage
        · constructor
          · intro htake
            refine ⟨List.mem_of_mem_take htake, ?_⟩
            rintro (⟨_, _, h3⟩ | ⟨h1, _⟩)
            · exact absurd ((mem_drop_iff_newerCount files o.maxBackups f hsorted
                  (List.mem_of_mem_take htake)).mpr h3)
                ((mem_take_iff_not_mem_drop files o.maxBackups hnd f
                  (List.mem_of_mem_take htake)).mp htake)
            · exact absurd h1 hage
          · rintro ⟨hmemf, hnot⟩
            have hnotdrop : f ∉ files.drop o.maxBackups := by
              intro hdrop
              exact hnot (Or.inl ⟨hcnt.1, hcnt.2,
                (mem_drop_iff_newerCount files o.maxBackups f hsorted hmemf).mp hdrop⟩)
            exact (mem_take_iff_not_mem_drop files o.maxBackups hnd f hmemf).mpr
              hnotdrop
    · rw [if_neg hcnt]
      by_cases hage : 0 < o.maxAge
      · rw [if_pos hage, millAgePass_eq]
        constructor
        · simp only [List.nil_append, List.mem_filter, decide_eq_true_eq]
          constructor
          · rintro ⟨hmemf, hcold⟩
            exact ⟨hmemf, Or.inr ⟨hage, hcold⟩⟩
          · rintro ⟨hmemf, (⟨h1, h2, _⟩ | ⟨_, hcold⟩)⟩
            · exact absurd ⟨h1, h2⟩ hcnt
            · exact ⟨hmemf, hcold⟩
        · simp only [List.mem_filter, Bool.not_eq_true', decide_eq_false_iff_not]
          constructor
          · rintro ⟨hmemf, hwarm⟩
            refine ⟨hmemf, ?_⟩
            rintro (⟨h1, h2, _⟩ | ⟨_, hcold⟩)
            · exact absurd ⟨h1, h2⟩ hcnt
            · exact hwarm hcold
          · rintro ⟨hmemf, hnot⟩
            exact ⟨hmemf, fun hcold => hnot (Or.inr ⟨hage, hcold⟩)⟩
      · rw [if_neg hage]
        constructor
        · simp only [List.nil_append, List.not_mem_nil, false_iff]
          rintro ⟨_, (⟨h1, h2, _⟩ | ⟨h1, _⟩)⟩
          · exact absurd ⟨h1, h2⟩ hcnt
          · exact absurd h1 hage
        · constructor
          · intro hmemf
            refine ⟨hmemf, ?_⟩
            rintro (⟨h1, h2, _⟩ | ⟨h1, _⟩)
            · exact absurd ⟨h1, h2⟩ hcnt
            · exact absurd h1 hage
          · rintro ⟨hmemf, _⟩
            exact hmemf

/-- Witness for C5: three backups newest first, MaxBackups 1 and MaxAge 1 at
time 3: the middle backup is removed (it has one newer sibling). -/
theorem C5_retention_witness :
    (⟨2, [50]⟩ : LogInfo) ∈
      (millSelect ⟨100, 1, 1, false, []⟩ 3
        [⟨3, [51]⟩, ⟨2, [50]⟩, ⟨1, [49]⟩]).1 :=
  ((C5_retention ⟨100, 1, 1, false, []⟩ 3 [⟨3, [51]⟩, ⟨2, [50]⟩, ⟨1, [49]⟩]
      (by decide) (by decide) ⟨2, [50]⟩).1).mpr (by decide)

/-- A list is a Boolean prefix of itself followed by anything. -/
theorem isPrefixOf_append_self (p r : List Nat) :
    p.isPrefixOf (p ++ r) = true := by
  induction p with
  | nil => simp [List.isPrefixOf]
  | cons a as ih => simp [List.isPrefixOf, ih]

/-- A list is a Boolean suffix of anything followed by itself. -/
theorem isSuffixOf_append_self (s r : List Nat) :
    s.isSuffixOf (r ++ s) = true := by
  simp only [List.isSuffixOf, List.reverse_append]
  exact isPrefixOf_append_self _ _

theorem sepByte_cons_self (c : Nat) (r : List Nat) :
    sepByte c (c :: r) = some r := by
  simp [sepByte]

theorem read2_pad2 (n : Nat) (h : n ≤ 99) (rest : List Nat) :
    read2 (pad2 n ++ rest) = some (n, rest) := by
  simp only [pad2, List.cons_append, List.nil_append, read2]
  rw [if_pos (by omega)]
  have hval : 10 * (48 + n / 10 - 48) + (48 + n % 10 - 48) = n := by omega
  rw [hval]

theorem read3_pad3 (n : Nat) (h : n ≤ 999) (rest : List Nat) :
    read3 (pad3 n ++ rest) = some (n, rest) := by
  simp only [pad3, List.cons_append, List.nil_append, read3]
  rw [if_pos (by omega)]
  have hval : 100 * (48 + n / 100 - 48) + 10 * (48 + n / 10 % 10 - 48) +
      (48 + n % 10 - 48) = n := by omega
  rw [hval]

theorem read4_pad4 (n : Nat) (h : n ≤ 9999) (rest : List Nat) :
    read4 (pad4 n ++ rest) = some (n, rest) := by
  simp only [pad4, List.cons_append, List.nil_append, read4]
  rw [if_pos (by omega)]
  have hval : 1000 * (48 + n / 1000 - 48) + 100 * (48 + n / 100 % 10 - 48) +
      10 * (48 + n / 10 % 10 - 48) + (48 + n % 10 - 48) = n := by omega
  rw [hval]

/-- Every month length is at most 31. -/
theorem daysInMonth_le (y m : Nat) : daysInMonth y m ≤ 31 := by
  unfold daysInMonth
  split_ifs <;> simp

/-- Parsing the formatted timestamp followed by leftover bytes succeeds
exactly when there is no leftover, and recovers the instant truncated to
milliseconds. -/
theorem parseTimestamp_format (t : TimeParts) (u : List Nat) (h : t.Valid) :
    parseTimestamp (formatTimestamp t ++ u) =
      if u = [] then some t.truncMs else none := by
  obtain ⟨y, mo, d, hh, mi, s, ms, ns⟩ := t
  obtain ⟨h1, h2, h3, h4, h5, h6, h7, h8, h9, h10⟩ := h
  dsimp only at h1 h2 h3 h4 h5 h6 h7 h8 h9 h10
  have hd99 : d ≤ 99 := by
    have := daysInMonth_le y mo
    omega
  simp only [formatTimestamp, List.append_assoc, List.cons_append] at *
  simp only [parseTimestamp,
    read4_pad4 y (by omega),
    sepByte_cons_self, Option.some_bind,
    read2_pad2 mo (by omega),
    read2_pad2 d hd99,
    read2_pad2 hh (by omega),
    read2_pad2 mi (by omega),
    read2_pad2 s (by omega),
    read3_pad3 ms (by omega)]
  by_cases hu : u = []
  · rw [if_pos hu, if_pos hu]
    rw [if_pos ⟨h2, h3, h4, h5, h6, h7, h8⟩]
    simp [TimeParts.truncMs]
  · rw [if_neg hu, if_neg hu]

theorem formatTimestamp_length (t : TimeParts) :
    (formatTimestamp t).length = 23 := by
  simp [formatTimestamp, pad4, pad2, pad3]

/-- The name generated by `backupName` is recognised by `timeFromName` with
the same prefix and extension, recovering the truncated instant. -/
theorem timeFromName_backupBase (pfx ext : List Nat) (t : TimeParts)
    (h : t.Valid) :
    timeFromName (backupBase pfx ext t) pfx ext = some t.truncMs := by
  have hpre : pfx.isPrefixOf (backupBase pfx ext t) = true := by
    unfold backupBase
    rw [List.append_assoc]
    exact isPrefixOf_append_self _ _
  have hsuf : ext.isSuffixOf (backupBase pfx ext t) = true := by
    unfold backupBase
    exact isSuffixOf_append_self _ _
  simp only [timeFromName, hpre, hsuf, if_true]
  unfold backupBase
  rw [List.length_append, Nat.add_sub_cancel, List.take_left, List.drop_left]
  simpa using parseTimestamp_format t [] h

/-- The compressed backup name is not recognised under the plain extension:
when the extension even happens to be a suffix of the compressed name, the
sliced middle carries four extra bytes and the fixed-width parse fails. -/
theorem timeFromName_compressed_plain_ext (pfx ext : List Nat) (t : TimeParts)
    (h : t.Valid) :
    timeFromName (backupBase pfx (ext ++ zstSuffix) t) pfx ext = none := by
  have hpre : pfx.isPrefixOf (backupBase pfx (ext ++ zstSuffix) t) = true := by
    unfold backupBase
    rw [List.append_assoc]
    exact isPrefixOf_append_self _ _
  simp only [timeFromName, hpre, if_true]
  by_cases hsuf : ext.isSuffixOf (backupBase pfx (ext ++ zstSuffix) t) = true
  · simp only [hsuf, if_true]
    unfold backupBase
    have hlen1 : ((pfx ++ formatTimestamp t) ++ (ext ++ zstSuffix)).length -
        ext.length = (pfx ++ formatTimestamp t).length + 4 := by
      simp only [List.length_append, formatTimestamp_length, zstSuffix,
        List.length_cons, List.length_nil]
      omega
    rw [hlen1, List.take_append_eq_append_take,
      List.take_of_length_le (by omega), Nat.add_sub_cancel_left]
    rw [List.append_assoc, List.drop_left]
    have hw : (ext ++ zstSuffix).take 4 ≠ [] := by
      have hwl : ((ext ++ zstSuffix).take 4).length = 4 := by
        simp only [List.length_take, List.length_append, zstSuffix,
          List.length_cons, List.length_nil]
        omega
      intro hnil
      rw [hnil] at hwl
      simp at hwl
    rw [parseTimestamp_format t _ h, if_neg hw]
  · simp [hsuf]

/-- C10: round trip between backup naming and backup discovery.  For every
representable instant, the generated backup name (prefix, formatted
timestamp, extension) — plain or with the compression suffix — is recognised
by the cleanup pass, which recovers exactly the instant truncated to the
millisecond precision of the format; and a name recognised under neither
extension is ignored by `oldLogFiles`. -/
theorem C10_backup_name_roundtrip (pfx ext : List Nat) (t : TimeParts)
    (h : t.Valid) :
    oldLogClassify pfx ext (backupBase pfx ext t) = some t.truncMs ∧
    oldLogClassify pfx ext (backupBase pfx ext t ++ zstSuffix) = some t.truncMs ∧
    ∀ (name : List Nat) (entries : List (List Nat)),
      oldLogClassify pfx ext name = none →
      ∀ p ∈ oldLogFilesModel pfx ext entries, p.2 ≠ name := by
  refine ⟨?_, ?_, ?_⟩
  · simp [oldLogClassify, timeFromName_backupBase pfx ext t h]
  · have hname : backupBase pfx ext t ++ zstSuffix =
        backupBase pfx (ext ++ zstSuffix) t := by
      simp [backupBase, List.append_assoc]
    rw [hname]
    simp [oldLogClassify, timeFromName_compressed_plain_ext pfx ext t h,
      timeFromName_backupBase pfx (ext ++ zstSuffix) t h]
  · intro name entries hnone p hp hpname
    obtain ⟨n, hn, hmap⟩ := List.mem_filterMap.mp hp
    rcases hmo : oldLogClassify pfx ext n with _ | t'
    · rw [hmo] at hmap
      simp at hmap
    · rw [hmo] at hmap
      obtain rfl : (t', n) = p := by simpa using hmap
      rw [show n = name from hpname] at hmo
      rw [hmo] at hnone
      exact Option.noConfusion hnone

/-- Witness for C10 at prefix `m-`, extension `.log` and a concrete
instant. -/
theorem C10_backup_name_roundtrip_witness :
    oldLogClassify [109, 45] [46, 108, 111, 103]
        (backupBase [109, 45] [46, 108, 111, 103] ⟨2026, 1, 2, 3, 4, 5, 678, 999⟩) =
      some (TimeParts.truncMs ⟨2026, 1, 2, 3, 4, 5, 678, 999⟩) :=
  (C10_backup_name_roundtrip [109, 45] [46, 108, 111, 103]
    ⟨2026, 1, 2, 3, 4, 5, 678, 999⟩ (by decide)).1
